import Mathlib

/-!
# UHP (User-Hosted Protocol) — verification of the spec against the source

Shallow embedding of the UHP agent (`src/agent/storage.js`,
`src/agent/permissions.js`, the storage and permission routes) and of the
sync layer described in the protocol document.  The local storage engine and
the permission system are translated from the JavaScript source; the sync
layer (crypto envelope, conflict resolver, restore) has no implementation in
the repository and is modelled from the spec where so marked.

Modelling conventions:
* `Date.now()` is an explicit `now : Nat` parameter;
* the randomly generated item id (`Date.now() + Math.random()` suffix) is an
  explicit `freshId : String` parameter;
* the SQLite `items` table (primary key `(namespace, collection, id)`) is a
  function from the key triple to an optional row;
* JavaScript truthiness of optional string fields (`undefined`, `null`, `""`
  are falsy) is modelled on `Option String` by `jsTruthy` / `jsOrElse`.
-/

/-- JSON values as stored in the `data` column (`JSON.stringify`/`JSON.parse`
round-trips).  JavaScript numbers are modelled as integers; no claim under
verification exercises fractional arithmetic. -/
inductive Json where
  | null : Json
  | bool : Bool → Json
  | num : Int → Json
  | str : String → Json
  | arr : List Json → Json
  | obj : List (String × Json) → Json

mutual

/-- Decidable equality on JSON values (written out because automatic deriving
does not handle the nested lists). -/
def decEqJson : (a b : Json) → Decidable (a = b)
  | .null, .null => .isTrue rfl
  | .null, .bool _ => .isFalse (fun h => Json.noConfusion h)
  | .null, .num _ => .isFalse (fun h => Json.noConfusion h)
  | .null, .str _ => .isFalse (fun h => Json.noConfusion h)
  | .null, .arr _ => .isFalse (fun h => Json.noConfusion h)
  | .null, .obj _ => .isFalse (fun h => Json.noConfusion h)
  | .bool _, .null => .isFalse (fun h => Json.noConfusion h)
  | .bool x, .bool y =>
    if h : x = y then .isTrue (h ▸ rfl) else .isFalse (fun hq => h (by injection hq))
  | .bool _, .num _ => .isFalse (fun h => Json.noConfusion h)
  | .bool _, .str _ => .isFalse (fun h => Json.noConfusion h)
  | .bool _, .arr _ => .isFalse (fun h => Json.noConfusion h)
  | .bool _, .obj _ => .isFalse (fun h => Json.noConfusion h)
  | .num _, .null => .isFalse (fun h => Json.noConfusion h)
  | .num _, .bool _ => .isFalse (fun h => Json.noConfusion h)
  | .num x, .num y =>
    if h : x = y then .isTrue (h ▸ rfl) else .isFalse (fun hq => h (by injection hq))
  | .num _, .str _ => .isFalse (fun h => Json.noConfusion h)
  | .num _, .arr _ => .isFalse (fun h => Json.noConfusion h)
  | .num _, .obj _ => .isFalse (fun h => Json.noConfusion h)
  | .str _, .null => .isFalse (fun h => Json.noConfusion h)
  | .str _, .bool _ => .isFalse (fun h => Json.noConfusion h)
  | .str _, .num _ => .isFalse (fun h => Json.noConfusion h)
  | .str x, .str y =>
    if h : x = y then .isTrue (h ▸ rfl) else .isFalse (fun hq => h (by injection hq))
  | .str _, .arr _ => .isFalse (fun h => Json.noConfusion h)
  | .str _, .obj _ => .isFalse (fun h => Json.noConfusion h)
  | .arr _, .null => .isFalse (fun h => Json.noConfusion h)
  | .arr _, .bool _ => .isFalse (fun h => Json.noConfusion h)
  | .arr _, .num _ => .isFalse (fun h => Json.noConfusion h)
  | .arr _, .str _ => .isFalse (fun h => Json.noConfusion h)
  | .arr xs, .arr ys =>
    match decEqJsonList xs ys with
    | .isTrue h => .isTrue (h ▸ rfl)
    | .isFalse h => .isFalse (fun hq => h (by injection hq))
  | .arr _, .obj _ => .isFalse (fun h => Json.noConfusion h)
  | .obj _, .null => .isFalse (fun h => Json.noConfusion h)
  | .obj _, .bool _ => .isFalse (fun h => Json.noConfusion h)
  | .obj _, .num _ => .isFalse (fun h => Json.noConfusion h)
  | .obj _, .str _ => .isFalse (fun h => Json.noConfusion h)
  | .obj _, .arr _ => .isFalse (fun h => Json.noConfusion h)
  | .obj xs, .obj ys =>
    match decEqJsonFields xs ys with
    | .isTrue h => .isTrue (h ▸ rfl)
    | .isFalse h => .isFalse (fun hq => h (by injection hq))

/-- Decidable equality on lists of JSON values. -/
def decEqJsonList : (a b : List Json) → Decidable (a = b)
  | [], [] => .isTrue rfl
  | [], _ :: _ => .isFalse (fun h => List.noConfusion h)
  | _ :: _, [] => .isFalse (fun h => List.noConfusion h)
  | x :: xs, y :: ys =>
    match decEqJson x y with
    | .isFalse h => .isFalse (fun hq => h (by injection hq))
    | .isTrue h1 =>
      match decEqJsonList xs ys with
      | .isTrue h2 => .isTrue (h1 ▸ h2 ▸ rfl)
      | .isFalse h2 => .isFalse (fun hq => h2 (by injection hq))

/-- Decidable equality on JSON object field lists. -/
def decEqJsonFields : (a b : List (String × Json)) → Decidable (a = b)
  | [], [] => .isTrue rfl
  | [], _ :: _ => .isFalse (fun h => List.noConfusion h)
  | _ :: _, [] => .isFalse (fun h => List.noConfusion h)
  | (k1, v1) :: xs, (k2, v2) :: ys =>
    if hk : k1 = k2 then
      match decEqJson v1 v2 with
      | .isFalse h =>
        .isFalse (fun hq => by
          injection hq with h1 h2
          exact h (congrArg Prod.snd h1))
      | .isTrue hv =>
        match decEqJsonFields xs ys with
        | .isTrue h2 => .isTrue (hk ▸ hv ▸ h2 ▸ rfl)
        | .isFalse h2 => .isFalse (fun hq => h2 (by injection hq))
    else
      .isFalse (fun hq => by
        injection hq with h1 h2
        exact hk (congrArg Prod.fst h1))

end

instance : DecidableEq Json := decEqJson

/-- Object fields of a JSON object, in insertion order. -/
abbrev Jfields := List (String × Json)

/-- A row of the `items` table minus its key columns:
`data TEXT, created_at INTEGER, updated_at INTEGER`. -/
structure Item where
  data : Json
  created_at : Nat
  updated_at : Nat
deriving DecidableEq

/-- Key of the `items` table: `(namespace, collection, id)`. -/
abbrev ItemKey := String × String × String

/-- The `items` table: at most one row per primary key. -/
def Store := ItemKey → Option Item

/-- The empty `items` table. -/
def emptyStore : Store := fun _ => none

/-- JavaScript truthiness of an optional string field: `undefined`/missing and
`""` are falsy. -/
def jsTruthy : Option String → Bool
  | none => false
  | some s => s != ""

/-- JavaScript `a || b` on an optional string: falls through on a missing or
empty value. -/
def jsOrElse (a : Option String) (b : String) : String :=
  match a with
  | none => b
  | some s => if s = "" then b else s

/-- Result object returned by `writeItem` (source returns
`{ id: itemId, created_at: now }`, with `created_at` always the current
clock reading, even when the row already existed). -/
structure WriteResult where
  id : String
  created_at : Nat
deriving DecidableEq

/-- Function `writeItem` from `src/agent/storage.js`: resolves the item id
(`id || generated`, so a missing or empty id falls back to the fresh
generated one), then runs the upsert
`INSERT ... ON CONFLICT(namespace, collection, id) DO UPDATE SET
data = excluded.data, updated_at = excluded.updated_at` — on conflict the
row keeps its original `created_at`. -/
def writeItem (ns collection : String) (id : Option String)
    (data : Json) (now : Nat) (freshId : String) (s : Store) :
    WriteResult × Store :=
  let itemId := jsOrElse id freshId
  let key : ItemKey := (ns, collection, itemId)
  let row : Item :=
    { data := data
      created_at := match s key with
        | some old => old.created_at
        | none => now
      updated_at := now }
  (⟨itemId, now⟩, fun k => if k = key then some row else s k)

/-- JavaScript object-spread of a patch into a base object,
`\x7b ...base, ...patch \x7d` restricted to object bases: the base's keys in
their original order, each overwritten by the patch's value when the patch
has that key, followed by the patch's keys that are new, in patch order. -/
def spreadMerge (base patch : Jfields) : Jfields :=
  base.map (fun kv =>
    match patch.lookup kv.1 with
    | some v => (kv.1, v)
    | none => kv) ++
  patch.filter (fun kv => (base.lookup kv.1).isNone)

/-- Enumerable own properties of a JSON value the way JavaScript spread sees
them: objects contribute their fields, arrays and strings contribute
index-keyed entries, primitives contribute nothing. -/
def spreadBase : Json → Jfields
  | .obj fs => fs
  | .arr xs => xs.enum.map fun p => (toString p.1, p.2)
  | .str s => s.toList.enum.map fun p => (toString p.1, Json.str (String.mk [p.2]))
  | _ => []

/-- Result object returned by `updateItem` on success
(`{ id, updated_at: now, data: merged }`). -/
structure UpdateResult where
  id : String
  updated_at : Nat
  data : Json
deriving DecidableEq

/-- Function `updateItem` from `src/agent/storage.js`: reads the existing row; when
absent returns `null` and issues no write; otherwise stores
`\x7b ...JSON.parse(existing.data), ...data \x7d` with a fresh `updated_at`
(`created_at` untouched by the `UPDATE` statement). -/
def updateItem (ns collection id : String) (data : Jfields)
    (now : Nat) (s : Store) : Option UpdateResult × Store :=
  match s (ns, collection, id) with
  | none => (none, s)
  | some existing =>
    (some ⟨id, now, Json.obj (spreadMerge (spreadBase existing.data) data)⟩,
      fun k =>
        if k = (ns, collection, id) then
          some { data := Json.obj (spreadMerge (spreadBase existing.data) data)
                 created_at := existing.created_at
                 updated_at := now }
        else s k)

/-- The slice of an HTTP response the storage routes produce: status code and
the `error` code string of the JSON body, when one is set. -/
structure HttpResponse where
  status : Nat
  error : Option String
deriving DecidableEq

/-- Route `POST /uhp/v1/storage/update` from the storage routes: validates
truthiness of `namespace`, `collection`, `id`, `data` (400 INVALID_REQUEST on
a missing field), forwards to `updateItem`, answers 404 NOT_FOUND when it
returned `null`, otherwise 200. -/
def updateRoute (ns collection id : Option String)
    (data : Option Jfields) (now : Nat) (s : Store) : HttpResponse × Store :=
  if !(jsTruthy ns) || !(jsTruthy collection) || !(jsTruthy id)
      || data.isNone then
    (⟨400, some "INVALID_REQUEST"⟩, s)
  else
    match updateItem (jsOrElse ns "") (jsOrElse collection "") (jsOrElse id "")
        (data.getD []) now s with
    | (none, s') => (⟨404, some "NOT_FOUND"⟩, s')
    | (some _, s') => (⟨200, none⟩, s')

/-- C1: Applying the same resolved write twice to the local store is a no-op
against already-equal state: for every namespace, collection, id and data
(and with the ambient clock reading and generated-id draw held fixed across
the two back-to-back calls, as "immediately after" prescribes), running
`writeItem` a second time immediately after the first leaves the stored item,
including all of its fields, equal to the state after the first call — and
returns the same result object. -/
theorem writeItem_idempotent (ns collection : String)
    (id : Option String) (data : Json) (now : Nat) (freshId : String)
    (s : Store) :
    writeItem ns collection id data now freshId
      (writeItem ns collection id data now freshId s).2 =
    writeItem ns collection id data now freshId s := by
  unfold writeItem
  simp only [Prod.mk.injEq, true_and]
  funext k
  by_cases hk : k = (ns, collection, jsOrElse id freshId) <;>
    simp [hk]

/-- Lookup distributes over append: the left list is consulted first. -/
theorem lookup_append (k : String) (a b : Jfields) :
    (a ++ b).lookup k = match a.lookup k with
      | some v => some v
      | none => b.lookup k := by
  induction a with
  | nil => simp [List.lookup]
  | cons hd tl ih =>
    obtain ⟨k', v⟩ := hd
    by_cases h : k = k'
    · simp [List.lookup, h]
    · simp [List.lookup, beq_false_of_ne h, ih]

/-- Looking up a key in the overwritten copy of the base object: present keys
keep their position and take the patch's value when the patch has the key. -/
theorem lookup_spread_left (k : String) (base patch : Jfields) :
    (base.map (fun kv =>
      match patch.lookup kv.1 with
      | some v => (kv.1, v)
      | none => kv)).lookup k =
    match base.lookup k with
    | some v => some (match patch.lookup k with
        | some w => w
        | none => v)
    | none => none := by
  induction base with
  | nil => simp [List.lookup]
  | cons hd tl ih =>
    obtain ⟨k', v⟩ := hd
    by_cases h : k = k'
    · subst h
      cases hp : patch.lookup k <;> simp [List.lookup, hp]
    · cases hp : patch.lookup k' <;>
        simp [List.lookup, hp, beq_false_of_ne h, ih]

/-- Looking up a key among the patch entries whose key is absent from the
base: yields the patch's binding exactly when the base lacks the key. -/
theorem lookup_spread_right (k : String) (base patch : Jfields) :
    (patch.filter (fun kv => (base.lookup kv.1).isNone)).lookup k =
    if (base.lookup k).isNone then patch.lookup k else none := by
  induction patch with
  | nil => simp [List.lookup]
  | cons hd tl ih =>
    obtain ⟨k', v⟩ := hd
    by_cases h : k = k'
    · subst h
      cases hb : (base.lookup k).isNone <;>
        simp [List.filter_cons, List.lookup, hb, ih]
    · cases hb : (base.lookup k').isNone <;>
        simp [List.filter_cons, List.lookup, hb, beq_false_of_ne h, ih]

/-- Field lookup through the one-level spread merge: the patch's binding when
present, the base's binding otherwise. -/
theorem lookup_spreadMerge (k : String) (base patch : Jfields) :
    (spreadMerge base patch).lookup k =
    match patch.lookup k with
    | some v => some v
    | none => base.lookup k := by
  unfold spreadMerge
  rw [lookup_append, lookup_spread_left, lookup_spread_right]
  cases hb : base.lookup k <;> cases hp : patch.lookup k <;> simp [hb, hp]

/-- C2: Partial update merges at exactly one level of nesting: for an existing
item whose stored data is the JSON object `E` and any update patch `D`,
`updateItem` stores the object `spreadMerge E D`, whose binding for every
top-level key is `D`'s value when `D` has the key (nested objects and arrays
in `D` replace the existing value wholesale, since values are opaque to the
merge) and `E`'s unchanged value otherwise; `created_at` is kept and
`updated_at` is refreshed. -/
theorem updateItem_one_level_merge (ns collection id : String)
    (E D : Jfields) (it : Item) (now : Nat) (s : Store)
    (hex : s (ns, collection, id) = some it)
    (hobj : it.data = Json.obj E) :
    (updateItem ns collection id D now s).2 (ns, collection, id) =
      some { data := Json.obj (spreadMerge E D)
             created_at := it.created_at
             updated_at := now } ∧
    ∀ k, (spreadMerge E D).lookup k =
      match D.lookup k with
      | some v => some v
      | none => E.lookup k := by
  constructor
  · unfold updateItem
    rw [hex]
    simp [hobj, spreadBase]
  · intro k
    exact lookup_spreadMerge k E D

/-- Witness for C2 at a concrete store: item `("n","c","i")` holds
`\x7b a: 1, b: 2 \x7d`, the patch is `\x7b b: 3, c: [4] \x7d`. -/
theorem updateItem_one_level_merge_witness :
    ((fun kk => if kk = ("n", "c", "i") then
        some (⟨Json.obj [("a", Json.num 1), ("b", Json.num 2)], 5, 5⟩ : Item)
      else none) : Store) ("n", "c", "i") =
      some (⟨Json.obj [("a", Json.num 1), ("b", Json.num 2)], 5, 5⟩ : Item) ∧
    (⟨Json.obj [("a", Json.num 1), ("b", Json.num 2)], 5, 5⟩ : Item).data =
      Json.obj [("a", Json.num 1), ("b", Json.num 2)] ∧
    ((updateItem "n" "c" "i" [("b", Json.num 3), ("c", Json.arr [Json.num 4])] 9
        ((fun kk => if kk = ("n", "c", "i") then
          some (⟨Json.obj [("a", Json.num 1), ("b", Json.num 2)], 5, 5⟩ : Item)
        else none) : Store)).2 ("n", "c", "i") =
      some { data := Json.obj (spreadMerge [("a", Json.num 1), ("b", Json.num 2)]
               [("b", Json.num 3), ("c", Json.arr [Json.num 4])])
             created_at := (⟨Json.obj [("a", Json.num 1), ("b", Json.num 2)], 5, 5⟩ : Item).created_at
             updated_at := 9 } ∧
    ∀ k, (spreadMerge [("a", Json.num 1), ("b", Json.num 2)]
        [("b", Json.num 3), ("c", Json.arr [Json.num 4])]).lookup k =
      match ([("b", Json.num 3), ("c", Json.arr [Json.num 4])] : Jfields).lookup k with
      | some v => some v
      | none => ([("a", Json.num 1), ("b", Json.num 2)] : Jfields).lookup k) :=
  ⟨by decide, rfl,
    updateItem_one_level_merge "n" "c" "i"
      [("a", Json.num 1), ("b", Json.num 2)]
      [("b", Json.num 3), ("c", Json.arr [Json.num 4])]
      ⟨Json.obj [("a", Json.num 1), ("b", Json.num 2)], 5, 5⟩ 9 _
      (by decide) rfl⟩

/-- C10: Update of a missing item is a detected no-op: with no stored row
under `(namespace, collection, id)`, `updateItem` returns `null` and leaves
the store untouched, the update route then answers 404 with error code
`NOT_FOUND`, and in general `updateItem` returns a non-null result exactly
when the item existed before the call. -/
theorem updateItem_missing_noop (ns collection id : String) (D : Jfields)
    (now : Nat) (s : Store)
    (hns : ns ≠ "") (hc : collection ≠ "") (hi : id ≠ "")
    (habs : s (ns, collection, id) = none) :
    updateItem ns collection id D now s = (none, s) ∧
    updateRoute (some ns) (some collection) (some id) (some D) now s =
      (⟨404, some "NOT_FOUND"⟩, s) ∧
    ∀ s' : Store,
      ((updateItem ns collection id D now s').1.isSome ↔
        (s' (ns, collection, id)).isSome) := by
  have hfirst : updateItem ns collection id D now s = (none, s) := by
    unfold updateItem
    rw [habs]
  refine ⟨hfirst, ?_, ?_⟩
  · simp [updateRoute, jsTruthy, jsOrElse, hns, hc, hi, hfirst]
  · intro s'
    unfold updateItem
    cases hs : s' (ns, collection, id) <;> simp [hs]

/-- Witness for C10 on the empty store, with nonempty namespace, collection
and id strings. -/
theorem updateItem_missing_noop_witness :
    ("n" : String) ≠ "" ∧ ("c" : String) ≠ "" ∧ ("i" : String) ≠ "" ∧
    emptyStore ("n", "c", "i") = none ∧
    (updateItem "n" "c" "i" [] 7 emptyStore = (none, emptyStore) ∧
     updateRoute (some "n") (some "c") (some "i") (some []) 7 emptyStore =
       (⟨404, some "NOT_FOUND"⟩, emptyStore) ∧
     ∀ s' : Store,
       ((updateItem "n" "c" "i" [] 7 s').1.isSome ↔
         (s' ("n", "c", "i")).isSome)) :=
  ⟨by decide, by decide, by decide, rfl,
    updateItem_missing_noop "n" "c" "i" [] 7 emptyStore
      (by decide) (by decide) (by decide) rfl⟩

/-- A row of the `permissions` table:
`origin, namespace, capabilities, granted_at`, primary key
`(origin, namespace)` (the namespace column is called `ns` here because
`namespace` is reserved in Lean). -/
structure PermRow where
  origin : String
  ns : String
  capabilities : List String
  granted_at : Nat
deriving DecidableEq

/-- The default capability set used when the request omits `capabilities`. -/
def defaultCaps : List String := ["storage.local", "storage.query", "storage.search"]

/-- Query `SELECT * FROM permissions WHERE origin = ? AND namespace = ?` — the
backing query of `checkPermission`. -/
def findPermission (t : List PermRow) (origin ns : String) : Option PermRow :=
  t.find? (fun r => r.origin == origin && r.ns == ns)

/-- The object returned by `requestPermission`
(`{ granted: true, namespace, origin, capabilities }`). -/
structure GrantResult where
  granted : Bool
  ns : String
  origin : String
  capabilities : List String
deriving DecidableEq

/-- Function `requestPermission` from `src/agent/permissions.js`: defaults the
capability list when absent, then runs
`INSERT OR REPLACE INTO permissions ... VALUES (?, ?, ?, ?)` — any existing
row with the same `(origin, namespace)` key is replaced whole — and always
answers `granted: true` (auto-grant). -/
def requestPermission (origin ns : String) (capabilities : Option (List String))
    (now : Nat) (t : List PermRow) : GrantResult × List PermRow :=
  (⟨true, ns, origin, capabilities.getD defaultCaps⟩,
    ⟨origin, ns, capabilities.getD defaultCaps, now⟩ ::
      t.filter (fun r => !(r.origin == origin && r.ns == ns)))

/-- Whether the pattern is an initial run of the list (character-wise). -/
def leadMatch : List Char → List Char → Bool
  | _, [] => true
  | [], _ :: _ => false
  | a :: as, b :: bs => a == b && leadMatch as bs

/-- Whether the pattern occurs contiguously anywhere in the list — the model
of JavaScript `String.prototype.includes`. -/
def hasSub (s pat : List Char) : Bool :=
  match s with
  | [] => leadMatch [] pat
  | _ :: rest => leadMatch s pat || hasSub rest pat

/-- JavaScript `s.includes(pat)`. -/
def strIncludes (s pat : String) : Bool :=
  hasSub s.toList pat.toList

/-- The request origin as the middleware computes it:
`req.get('Origin') || req.get('Referer') || 'unknown'`. -/
def reqOrigin (originHdr refererHdr : Option String) : String :=
  jsOrElse originHdr (jsOrElse refererHdr "unknown")

/-- The development carve-out of `requirePermission`:
`origin.includes('localhost') || origin.includes('127.0.0.1') ||
origin === 'unknown'`. -/
def isLocalhostOrigin (origin : String) : Bool :=
  strIncludes origin "localhost" || strIncludes origin "127.0.0.1"
    || origin == "unknown"

/-- What the permission middleware does with a request: pass it to the next
handler, or answer 403 immediately. -/
inductive MwOutcome where
  | nextPass
  | deny403
deriving DecidableEq

/-- Middleware `requirePermission` from `src/agent/permissions.js`: computes the origin
from the `Origin` then `Referer` headers (falling back to `"unknown"`), lets
requests without a (truthy) `namespace` in the body pass for the route
handler to validate, and otherwise denies with 403 exactly when no grant row
exists and the origin is not a localhost-style one. -/
def requirePermission (originHdr refererHdr : Option String)
    (bodyNs : Option String) (t : List PermRow) : MwOutcome :=
  if !(jsTruthy bodyNs) then .nextPass
  else if !((findPermission t (reqOrigin originHdr refererHdr)
        (bodyNs.getD "")).isSome)
      && !(isLocalhostOrigin (reqOrigin originHdr refererHdr)) then
    .deny403
  else .nextPass

/-- The localhost carve-out, spelled out. -/
theorem isLocalhostOrigin_iff (origin : String) :
    isLocalhostOrigin origin = true ↔
      (strIncludes origin "localhost" = true ∨
       strIncludes origin "127.0.0.1" = true ∨
       origin = "unknown") := by
  simp [isLocalhostOrigin, or_assoc]

/-- C8: The permission middleware denies exactly the non-local ungranted
requests: with a (nonempty) namespace in the body, it answers 403 if and
only if no permission row exists for the computed `(origin, namespace)` and
the origin string neither contains `"localhost"` nor `"127.0.0.1"` nor
equals `"unknown"`; a request with neither an `Origin` nor a `Referer`
header is always passed through regardless of grants, and a request with no
namespace in the body is always passed through. -/
theorem requirePermission_denies_iff (originHdr refererHdr : Option String)
    (ns : String) (t : List PermRow) (hns : ns ≠ "") :
    (requirePermission originHdr refererHdr (some ns) t = .deny403 ↔
      (findPermission t (reqOrigin originHdr refererHdr) ns = none ∧
        ¬ (strIncludes (reqOrigin originHdr refererHdr) "localhost" = true ∨
           strIncludes (reqOrigin originHdr refererHdr) "127.0.0.1" = true ∨
           reqOrigin originHdr refererHdr = "unknown"))) ∧
    (∀ (bodyNs : Option String) (t' : List PermRow),
      requirePermission none none bodyNs t' = .nextPass) ∧
    (∀ t' : List PermRow,
      requirePermission originHdr refererHdr none t' = .nextPass) := by
  refine ⟨?_, ?_, ?_⟩
  · rw [← isLocalhostOrigin_iff]
    cases hf : findPermission t (reqOrigin originHdr refererHdr) ns with
    | some r => simp [requirePermission, jsTruthy, hns, hf]
    | none =>
      cases hl : isLocalhostOrigin (reqOrigin originHdr refererHdr) with
      | true => simp [requirePermission, jsTruthy, hns, hf, hl]
      | false => simp [requirePermission, jsTruthy, hns, hf, hl]
  · intro bodyNs t'
    cases bodyNs with
    | none => simp [requirePermission, jsTruthy]
    | some s =>
      by_cases hs : s = ""
      · simp [requirePermission, jsTruthy, hs]
      · have : reqOrigin none none = "unknown" := rfl
        simp [requirePermission, jsTruthy, hs, isLocalhostOrigin, this]
  · intro t'
    simp [requirePermission, jsTruthy]

/-- Witness for C8 with a granted-elsewhere table, a remote origin and a
nonempty namespace (the middleware denies, matching the right-hand side). -/
theorem requirePermission_denies_iff_witness :
    ("notes" : String) ≠ "" ∧
    ((requirePermission (some "https://evil.example") none (some "notes")
        [⟨"https://good.example", "notes", ["storage.local"], 3⟩] = .deny403 ↔
      (findPermission [⟨"https://good.example", "notes", ["storage.local"], 3⟩]
          (reqOrigin (some "https://evil.example") none) "notes" = none ∧
        ¬ (strIncludes (reqOrigin (some "https://evil.example") none) "localhost" = true ∨
           strIncludes (reqOrigin (some "https://evil.example") none) "127.0.0.1" = true ∨
           reqOrigin (some "https://evil.example") none = "unknown"))) ∧
    (∀ (bodyNs : Option String) (t' : List PermRow),
      requirePermission none none bodyNs t' = .nextPass) ∧
    (∀ t' : List PermRow,
      requirePermission (some "https://evil.example") none none t' = .nextPass)) :=
  ⟨by decide,
    requirePermission_denies_iff (some "https://evil.example") none "notes"
      [⟨"https://good.example", "notes", ["storage.local"], 3⟩] (by decide)⟩

/-- Unfolding `findPermission` over a cons cell. -/
theorem findPermission_cons (r : PermRow) (t : List PermRow) (o' n' : String) :
    findPermission (r :: t) o' n' =
      if (r.origin == o' && r.ns == n') = true then some r
      else findPermission t o' n' := by
  unfold findPermission
  cases hq : (r.origin == o' && r.ns == n') <;> simp [List.find?, hq]

/-- Replacing the `(origin, namespace)` row leaves every other key's lookup
unchanged. -/
theorem findPermission_filter_other (t : List PermRow) (origin ns o' n' : String)
    (h : ¬(o' = origin ∧ n' = ns)) :
    findPermission (t.filter (fun r => !(r.origin == origin && r.ns == ns))) o' n' =
    findPermission t o' n' := by
  induction t with
  | nil => rfl
  | cons r rest ih =>
    rw [List.filter_cons]
    cases hdrop : (r.origin == origin && r.ns == ns) with
    | false =>
      simp only [hdrop, Bool.not_false, if_true]
      rw [findPermission_cons, findPermission_cons, ih]
    | true =>
      simp only [hdrop, Bool.not_true, Bool.false_eq_true, if_false]
      have hro : r.origin = origin := eq_of_beq ((Bool.and_eq_true _ _).mp hdrop).1
      have hrn : r.ns = ns := eq_of_beq ((Bool.and_eq_true _ _).mp hdrop).2
      have hq : (r.origin == o' && r.ns == n') = false := by
        cases hq2 : (r.origin == o' && r.ns == n') with
        | false => rfl
        | true =>
          obtain ⟨h1, h2⟩ := (Bool.and_eq_true _ _).mp hq2
          exact absurd ⟨(eq_of_beq h1).symm.trans hro, (eq_of_beq h2).symm.trans hrn⟩ h
      rw [findPermission_cons, if_neg (by simp [hq]), ih]

/-- C9: Permission requests are never denied: for every origin, namespace and
capability list (with an omitted list defaulting to
`["storage.local","storage.query","storage.search"]`), `requestPermission`
returns `granted: true` with the requested capabilities, and the stored
grant row for `(origin, namespace)` is inserted or replaced whole with those
capabilities while every other key's row is untouched. -/
theorem requestPermission_always_grants (origin ns : String)
    (capabilities : Option (List String)) (now : Nat) (t : List PermRow) :
    (requestPermission origin ns capabilities now t).1.granted = true ∧
    (requestPermission origin ns capabilities now t).1.capabilities =
      capabilities.getD defaultCaps ∧
    ∀ o' n',
      findPermission (requestPermission origin ns capabilities now t).2 o' n' =
        if o' = origin ∧ n' = ns then
          some ⟨origin, ns, capabilities.getD defaultCaps, now⟩
        else findPermission t o' n' := by
  refine ⟨rfl, rfl, ?_⟩
  intro o' n'
  unfold requestPermission
  rw [findPermission_cons]
  by_cases h : o' = origin ∧ n' = ns
  · rcases h with ⟨ho, hn⟩
    subst ho hn
    simp
  · have hq : ((origin == o') && (ns == n')) = false := by
      cases hq2 : ((origin == o') && (ns == n')) with
      | false => rfl
      | true =>
        obtain ⟨h1, h2⟩ := (Bool.and_eq_true _ _).mp hq2
        exact absurd ⟨(eq_of_beq h1).symm, (eq_of_beq h2).symm⟩ h
    rw [if_neg (by simp [hq]), if_neg h]
    exact findPermission_filter_other t origin ns o' n' h

/-!
## Sync layer — modelled from the spec

Nothing below this point exists in `src/`: the repository documents the sync
layer (crypto envelope, change entries, conflict resolution, restore) in its
protocol description only.  The definitions are therefore modelled from the
spec, as their doc comments record.  Byte strings are idealized as lists of
naturals; the canonical serialization of a change entry is an injective
token encoding built on the Cantor-style pairing function.
-/

/-- Idealized byte strings of the sync layer (each element one byte). -/
abbrev Bytes := List Nat

/-- Self-delimiting encoding of a token list into a single natural. -/
def encodeList : List Nat → Nat
  | [] => 0
  | x :: xs => Nat.pair x (encodeList xs) + 1

/-- Total decoder for `encodeList`. -/
def decodeList : Nat → List Nat
  | 0 => []
  | n + 1 => (Nat.unpair n).1 :: decodeList (Nat.unpair n).2
decreasing_by exact Nat.lt_succ_of_le (Nat.unpair_right_le n)

theorem decodeList_encodeList (l : List Nat) : decodeList (encodeList l) = l := by
  induction l with
  | nil => simp [encodeList, decodeList]
  | cons x xs ih => simp [encodeList, decodeList, Nat.unpair_pair, ih]

/-- Canonical encoding of a string (its character codes). -/
def encStr (s : String) : Nat :=
  encodeList (s.toList.map Char.toNat)

/-- Total decoder for `encStr`. -/
def decStr (n : Nat) : String :=
  String.mk ((decodeList n).map Char.ofNat)

theorem map_ofNat_toNat (d : List Char) :
    d.map (fun c => Char.ofNat c.toNat) = d := by
  induction d with
  | nil => rfl
  | cons c d ih => simp [ih, Char.ofNat_toNat]

theorem decStr_encStr (s : String) : decStr (encStr s) = s := by
  obtain ⟨d⟩ := s
  unfold decStr encStr
  rw [decodeList_encodeList, List.map_map]
  show String.mk (d.map (fun c => Char.ofNat c.toNat)) = String.mk d
  rw [map_ofNat_toNat]

/-- Canonical encoding of a (signed) timestamp. -/
def encInt : Int → Nat
  | .ofNat n => 2 * n
  | .negSucc n => 2 * n + 1

/-- Total decoder for `encInt`. -/
def decInt (m : Nat) : Int :=
  if m % 2 = 0 then .ofNat (m / 2) else .negSucc (m / 2)

theorem decInt_encInt (i : Int) : decInt (encInt i) = i := by
  cases i with
  | ofNat n =>
    have h1 : (2 * n) % 2 = 0 := by omega
    have h2 : 2 * n / 2 = n := by omega
    simp [encInt, decInt, h1, h2]
  | negSucc n =>
    have h1 : ¬((2 * n + 1) % 2 = 0) := by omega
    have h2 : (2 * n + 1) / 2 = n := by omega
    simp [encInt, decInt, h1, h2]

mutual

/-- Injective encoding of a JSON value into a natural, tagged per
constructor. -/
def encodeJson : Json → Nat
  | .null => Nat.pair 1 0
  | .bool b => Nat.pair 2 (cond b 1 0)
  | .num n => Nat.pair 3 (encInt n)
  | .str s => Nat.pair 4 (encStr s)
  | .arr xs => Nat.pair 5 (encodeJsonList xs)
  | .obj fs => Nat.pair 6 (encodeJsonFields fs)

/-- Encoding of a JSON array's elements. -/
def encodeJsonList : List Json → Nat
  | [] => 0
  | x :: xs => Nat.pair (encodeJson x) (encodeJsonList xs) + 1

/-- Encoding of a JSON object's fields. -/
def encodeJsonFields : List (String × Json) → Nat
  | [] => 0
  | kv :: fs => Nat.pair (Nat.pair (encStr kv.1) (encodeJson kv.2)) (encodeJsonFields fs) + 1

end

/-- Option-valued map, failing when any element fails. -/
def mapOpt {α β : Type} (f : α → Option β) : List α → Option (List β)
  | [] => some []
  | a :: as =>
    match f a, mapOpt f as with
    | some b, some bs => some (b :: bs)
    | _, _ => none

/-- Fuelled decoder for `encodeJson`; the fuel bounds the nesting depth. -/
def decodeJson : Nat → Nat → Option Json
  | 0, _ => none
  | fuel + 1, n =>
    if (Nat.unpair n).1 = 1 then some .null
    else if (Nat.unpair n).1 = 2 then some (.bool ((Nat.unpair n).2 != 0))
    else if (Nat.unpair n).1 = 3 then some (.num (decInt (Nat.unpair n).2))
    else if (Nat.unpair n).1 = 4 then some (.str (decStr (Nat.unpair n).2))
    else if (Nat.unpair n).1 = 5 then
      (mapOpt (fun t => decodeJson fuel t) (decodeList (Nat.unpair n).2)).map Json.arr
    else if (Nat.unpair n).1 = 6 then
      (mapOpt (fun t =>
          (decodeJson fuel (Nat.unpair t).2).map
            (fun j => (decStr (Nat.unpair t).1, j)))
        (decodeList (Nat.unpair n).2)).map Json.obj
    else none

mutual

/-- Nesting depth of a JSON value — the fuel `decodeJson` needs. -/
def jdepth : Json → Nat
  | .null => 1
  | .bool _ => 1
  | .num _ => 1
  | .str _ => 1
  | .arr xs => jdepthList xs + 1
  | .obj fs => jdepthFields fs + 1

/-- Maximal depth among a JSON array's elements. -/
def jdepthList : List Json → Nat
  | [] => 0
  | x :: xs => max (jdepth x) (jdepthList xs)

/-- Maximal depth among a JSON object's field values. -/
def jdepthFields : List (String × Json) → Nat
  | [] => 0
  | kv :: fs => max (jdepth kv.2) (jdepthFields fs)

end

/-- A nonzero first pairing component keeps the encoded value above the
second component. -/
theorem succ_right_le_pair (a b : Nat) (ha : 1 ≤ a) : b + 1 ≤ Nat.pair a b := by
  unfold Nat.pair
  split
  · have hb : 2 ≤ b := by omega
    have : 2 * b ≤ b * b := Nat.mul_le_mul_right b hb
    omega
  · have : 1 * 1 ≤ a * a := Nat.mul_le_mul ha ha
    omega

theorem encodeJsonList_eq (xs : List Json) :
    encodeJsonList xs = encodeList (xs.map encodeJson) := by
  induction xs with
  | nil => rfl
  | cons x xs ih => simp [encodeJsonList, encodeList, ih]

theorem encodeJsonFields_eq (fs : List (String × Json)) :
    encodeJsonFields fs =
      encodeList (fs.map (fun kv => Nat.pair (encStr kv.1) (encodeJson kv.2))) := by
  induction fs with
  | nil => rfl
  | cons kv fs ih => simp [encodeJsonFields, encodeList, ih]

/-- The encoding always dominates the nesting depth, so the encoded value
itself is enough fuel for decoding. -/
theorem jdepth_le_encodeJson_all : ∀ N : Nat,
    (∀ j : Json, sizeOf j ≤ N → jdepth j ≤ encodeJson j) ∧
    (∀ xs : List Json, sizeOf xs ≤ N → jdepthList xs ≤ encodeJsonList xs) ∧
    (∀ fs : List (String × Json), sizeOf fs ≤ N → jdepthFields fs ≤ encodeJsonFields fs) := by
  intro N
  induction N with
  | zero =>
    refine ⟨fun j hj => ?_, fun xs hxs => ?_, fun fs hfs => ?_⟩
    · cases j <;> simp_all
    · cases xs <;> simp_all
    · cases fs <;> simp_all
  | succ N ih =>
    obtain ⟨ihj, ihl, ihf⟩ := ih
    refine ⟨fun j hj => ?_, fun xs hxs => ?_, fun fs hfs => ?_⟩
    · cases j with
      | null => simp [jdepth, encodeJson]; decide
      | bool b => cases b <;> simp [jdepth, encodeJson] <;> decide
      | num i =>
        have := succ_right_le_pair 3 (encInt i) (by omega)
        simp only [jdepth, encodeJson]
        omega
      | str s =>
        have := succ_right_le_pair 4 (encStr s) (by omega)
        simp only [jdepth, encodeJson]
        omega
      | arr xs =>
        have hsz : sizeOf xs ≤ N := by simp at hj; omega
        have h1 := ihl xs hsz
        have h2 := succ_right_le_pair 5 (encodeJsonList xs) (by omega)
        simp only [jdepth, encodeJson]
        omega
      | obj fs =>
        have hsz : sizeOf fs ≤ N := by simp at hj; omega
        have h1 := ihf fs hsz
        have h2 := succ_right_le_pair 6 (encodeJsonFields fs) (by omega)
        simp only [jdepth, encodeJson]
        omega
    · cases xs with
      | nil => simp [jdepthList, encodeJsonList]
      | cons x xs =>
        have hx : sizeOf x ≤ N := by simp at hxs; omega
        have hxs' : sizeOf xs ≤ N := by simp at hxs; omega
        have h1 := ihj x hx
        have h2 := ihl xs hxs'
        have h3 := Nat.left_le_pair (encodeJson x) (encodeJsonList xs)
        have h4 := Nat.right_le_pair (encodeJson x) (encodeJsonList xs)
        simp only [jdepthList, encodeJsonList]
        omega
    · cases fs with
      | nil => simp [jdepthFields, encodeJsonFields]
      | cons kv fs =>
        have hv : sizeOf kv.2 ≤ N := by
          obtain ⟨k, v⟩ := kv
          simp at hfs ⊢
          omega
        have hfs' : sizeOf fs ≤ N := by simp at hfs; omega
        have h1 := ihj kv.2 hv
        have h2 := ihf fs hfs'
        have h3 := Nat.right_le_pair (encStr kv.1) (encodeJson kv.2)
        have h4 := Nat.left_le_pair (Nat.pair (encStr kv.1) (encodeJson kv.2))
          (encodeJsonFields fs)
        have h5 := Nat.right_le_pair (Nat.pair (encStr kv.1) (encodeJson kv.2))
          (encodeJsonFields fs)
        simp only [jdepthFields, encodeJsonFields]
        omega

theorem jdepth_le_encodeJson (j : Json) : jdepth j ≤ encodeJson j :=
  (jdepth_le_encodeJson_all (sizeOf j)).1 j (Nat.le_refl _)

/-- Decoding inverts encoding for every JSON value, given fuel at least the
nesting depth (proved simultaneously for values, array elements and object
fields by strong induction on the size). -/
theorem decodeJson_encodeJson_all : ∀ N : Nat,
    (∀ j : Json, sizeOf j ≤ N → ∀ fuel, jdepth j ≤ fuel →
      decodeJson fuel (encodeJson j) = some j) ∧
    (∀ xs : List Json, sizeOf xs ≤ N → ∀ fuel, jdepthList xs ≤ fuel →
      mapOpt (fun t => decodeJson fuel t) (xs.map encodeJson) = some xs) ∧
    (∀ fs : List (String × Json), sizeOf fs ≤ N → ∀ fuel, jdepthFields fs ≤ fuel →
      mapOpt (fun t =>
          (decodeJson fuel (Nat.unpair t).2).map
            (fun j => (decStr (Nat.unpair t).1, j)))
        (fs.map (fun kv => Nat.pair (encStr kv.1) (encodeJson kv.2))) = some fs) := by
  intro N
  induction N with
  | zero =>
    refine ⟨fun j hj => ?_, fun xs hxs => ?_, fun fs hfs => ?_⟩
    · cases j <;> simp_all
    · cases xs <;> simp_all
    · cases fs <;> simp_all
  | succ N ih =>
    obtain ⟨ihj, ihl, ihf⟩ := ih
    refine ⟨fun j hj fuel hfuel => ?_, fun xs hxs fuel hfuel => ?_,
      fun fs hfs fuel hfuel => ?_⟩
    · cases j with
      | null =>
        cases fuel with
        | zero => simp [jdepth] at hfuel
        | succ f => simp [decodeJson, encodeJson, Nat.unpair_pair]
      | bool b =>
        cases fuel with
        | zero => simp [jdepth] at hfuel
        | succ f => cases b <;> simp [decodeJson, encodeJson, Nat.unpair_pair]
      | num i =>
        cases fuel with
        | zero => simp [jdepth] at hfuel
        | succ f => simp [decodeJson, encodeJson, Nat.unpair_pair, decInt_encInt]
      | str s =>
        cases fuel with
        | zero => simp [jdepth] at hfuel
        | succ f => simp [decodeJson, encodeJson, Nat.unpair_pair, decStr_encStr]
      | arr xs =>
        cases fuel with
        | zero => simp [jdepth] at hfuel
        | succ f =>
          have hsz : sizeOf xs ≤ N := by simp at hj; omega
          have hfl : jdepthList xs ≤ f := by
            simp [jdepth] at hfuel
            omega
          simp [decodeJson, encodeJson, Nat.unpair_pair, encodeJsonList_eq,
            decodeList_encodeList, ihl xs hsz f hfl]
      | obj fs =>
        cases fuel with
        | zero => simp [jdepth] at hfuel
        | succ f =>
          have hsz : sizeOf fs ≤ N := by simp at hj; omega
          have hfl : jdepthFields fs ≤ f := by
            simp [jdepth] at hfuel
            omega
          simp [decodeJson, encodeJson, Nat.unpair_pair, encodeJsonFields_eq,
            decodeList_encodeList, ihf fs hsz f hfl]
    · cases xs with
      | nil => simp [mapOpt]
      | cons x xs =>
        have hx : sizeOf x ≤ N := by simp at hxs; omega
        have hxs' : sizeOf xs ≤ N := by simp at hxs; omega
        have hfx : jdepth x ≤ fuel := by
          simp [jdepthList] at hfuel
          omega
        have hfxs : jdepthList xs ≤ fuel := by
          simp [jdepthList] at hfuel
          omega
        simp [mapOpt, ihj x hx fuel hfx, ihl xs hxs' fuel hfxs]
    · cases fs with
      | nil => simp [mapOpt]
      | cons kv fs =>
        obtain ⟨k, v⟩ := kv
        have hv : sizeOf v ≤ N := by simp at hfs; omega
        have hfs' : sizeOf fs ≤ N := by simp at hfs; omega
        have hfv : jdepth v ≤ fuel := by
          simp [jdepthFields] at hfuel
          omega
        have hff : jdepthFields fs ≤ fuel := by
          simp [jdepthFields] at hfuel
          omega
        simp [mapOpt, Nat.unpair_pair, ihj v hv fuel hfv, ihf fs hfs' fuel hff,
          decStr_encStr]

theorem decodeJson_encodeJson (j : Json) (fuel : Nat) (h : jdepth j ≤ fuel) :
    decodeJson fuel (encodeJson j) = some j :=
  (decodeJson_encodeJson_all (sizeOf j)).1 j (Nat.le_refl _) fuel h

/-- The three change-log operations (`Write`, `Update`, `Delete`). -/
inductive SyncOp where
  | write
  | update
  | delete
deriving DecidableEq

/-- Modelled from the spec: a `ChangeEntry` of the (unimplemented) sync
layer — `\x7b device_id, seq, op, namespace, collection, item_id, payload,
timestamp \x7d`, with `payload` the full document for Write, a merge patch
for Update and absent for Delete (the namespace field is called `ns` here
because `namespace` is reserved in Lean). -/
structure ChangeEntry where
  device_id : String
  seq : Nat
  op : SyncOp
  ns : String
  collection : String
  item_id : String
  payload : Option Json
  timestamp : Int
deriving DecidableEq

/-- Token for an operation. -/
def encOp : SyncOp → Nat
  | .write => 1
  | .update => 2
  | .delete => 3

/-- Decoder for `encOp`. -/
def decOp (n : Nat) : Option SyncOp :=
  if n = 1 then some .write
  else if n = 2 then some .update
  else if n = 3 then some .delete
  else none

theorem decOp_encOp (op : SyncOp) : decOp (encOp op) = some op := by
  cases op <;> simp [encOp, decOp]

/-- Token for an optional payload. -/
def encPayload : Option Json → Nat
  | none => 0
  | some j => encodeJson j + 1

/-- Decoder for `encPayload` (the token itself is enough decoding fuel). -/
def decPayload (n : Nat) : Option (Option Json) :=
  if n = 0 then some none
  else (decodeJson (n - 1) (n - 1)).map some

theorem decPayload_encPayload (p : Option Json) : decPayload (encPayload p) = some p := by
  cases p with
  | none => simp [encPayload, decPayload]
  | some j =>
    have h := decodeJson_encodeJson j (encodeJson j) (jdepth_le_encodeJson j)
    simp [encPayload, decPayload, h]

/-- Modelled from the spec: the canonical byte form of a `ChangeEntry` that
`encrypt` serializes (the spec fixes no concrete wire format, only that it
is canonical and invertible), one token per field. -/
def serializeEntry (e : ChangeEntry) : Bytes :=
  [encStr e.device_id, e.seq, encOp e.op, encStr e.ns, encStr e.collection,
   encStr e.item_id, encPayload e.payload, encInt e.timestamp]

/-- Modelled from the spec: the inverse parse of the canonical byte form,
failing on malformed input. -/
def deserializeEntry : Bytes → Option ChangeEntry
  | [d, s, o, n, c, i, p, t] =>
    match decOp o, decPayload p with
    | some op, some payload =>
      some ⟨decStr d, s, op, decStr n, decStr c, decStr i, payload, decInt t⟩
    | _, _ => none
  | _ => none

theorem deserializeEntry_serializeEntry (e : ChangeEntry) :
    deserializeEntry (serializeEntry e) = some e := by
  simp [serializeEntry, deserializeEntry, decOp_encOp, decPayload_encPayload,
    decStr_encStr, decInt_encInt]

/-- Modelled from the spec: the AES-256-GCM keystream byte at position `i`
(the spec's cipher is idealized as a nonce-and-key-derived XOR keystream;
its cryptographic strength is outside the model, only the XOR structure and
the envelope logic are). -/
def ksByte (ek nonce : Bytes) (i : Nat) : Nat :=
  (ek.getD (i % (ek.length + 1)) 0) ^^^ (nonce.getD (i % (nonce.length + 1)) 0) ^^^ i

/-- XOR of a byte string against the keystream, starting at position `i`. -/
def xorKs (ek nonce : Bytes) : Nat → Bytes → Bytes
  | _, [] => []
  | i, b :: bs => (b ^^^ ksByte ek nonce i) :: xorKs ek nonce (i + 1) bs

theorem xorKs_involutive (ek nonce : Bytes) (i : Nat) (bs : Bytes) :
    xorKs ek nonce i (xorKs ek nonce i bs) = bs := by
  induction bs generalizing i with
  | nil => rfl
  | cons b bs ih =>
    simp only [xorKs, ih]
    rw [Nat.xor_assoc, Nat.xor_self, Nat.xor_zero]

theorem xorKs_length (ek nonce : Bytes) (i : Nat) (bs : Bytes) :
    (xorKs ek nonce i bs).length = bs.length := by
  induction bs generalizing i with
  | nil => rfl
  | cons b bs ih => simp [xorKs, ih]

/-- Modelled from the spec: `HMAC-SHA256(signing_key, nonce || ciphertext)`,
idealized as a perfectly collision-free keyed tag (the tag determines its
message for a fixed key; real-world hash collisions are outside the model,
only the verify-before-decrypt envelope logic is). -/
def macTag (sk msg : Bytes) : Bytes :=
  sk ++ msg

theorem macTag_inj (sk m1 m2 : Bytes) (h : macTag sk m1 = macTag sk m2) :
    m1 = m2 := by
  unfold macTag at h
  exact List.append_cancel_left h

/-- Modelled from the spec: an `EncryptedBlob`
`\x7b nonce, ciphertext, mac, seq, device_id, timestamp \x7d` — one blob per
change entry, immutable once written to the relay. -/
structure EncryptedBlob where
  nonce : Bytes
  ciphertext : Bytes
  mac : Bytes
  seq : Nat
  device_id : String
  timestamp : Int
deriving DecidableEq

/-- Modelled from the spec: `encrypt(entry, encryption_key, signing_key)` of
the (unimplemented) crypto envelope — serializes the entry canonically,
authenticated-encrypts it under the fresh random nonce (externalized as the
`nonce` argument), and tags `nonce || ciphertext` with the signing key. -/
def encrypt (entry : ChangeEntry) (ek sk nonce : Bytes) : EncryptedBlob :=
  { nonce := nonce
    ciphertext := xorKs ek nonce 0 (serializeEntry entry)
    mac := macTag sk (nonce ++ xorKs ek nonce 0 (serializeEntry entry))
    seq := entry.seq
    device_id := entry.device_id
    timestamp := entry.timestamp }

/-- Outcome of `decrypt`: a recovered entry, or the fail-closed
`IntegrityError`. -/
inductive DecryptResult where
  | ok (entry : ChangeEntry)
  | integrityError
deriving DecidableEq

/-- Modelled from the spec: `decrypt(blob, encryption_key, signing_key)` of
the (unimplemented) crypto envelope — recomputes and compares the
authentication tag over `nonce || ciphertext` before any decryption work,
fails closed with `IntegrityError` on any mismatch (and on a post-decryption
parse failure), and otherwise returns the recovered entry. -/
def decrypt (blob : EncryptedBlob) (ek sk : Bytes) : DecryptResult :=
  if blob.mac = macTag sk (blob.nonce ++ blob.ciphertext) then
    match deserializeEntry (xorKs ek blob.nonce 0 blob.ciphertext) with
    | some e => .ok e
    | none => .integrityError
  else .integrityError

/-- C3: Crypto envelope round-trip: decrypting the blob produced by
`encrypt(entry, encryption_key, signing_key)` with the same keys returns the
original entry, for every entry and every (12-byte, per the spec) nonce. -/
theorem decrypt_encrypt_roundtrip (entry : ChangeEntry) (ek sk nonce : Bytes)
    (hn : nonce.length = 12) :
    decrypt (encrypt entry ek sk nonce) ek sk = .ok entry := by
  simp [decrypt, encrypt, xorKs_involutive, deserializeEntry_serializeEntry]

/-- Witness for C3 at a concrete entry, keys and 12-byte nonce. -/
theorem decrypt_encrypt_roundtrip_witness :
    ([0, 1, 2, 3, 4, 5, 6, 7, 8, 9, 10, 11] : Bytes).length = 12 ∧
    decrypt (encrypt ⟨"devA", 1, .write, "x.com", "bookmarks", "t1",
        some (Json.obj [("text", Json.str "a")]), 1000⟩
      [7, 7] [9] [0, 1, 2, 3, 4, 5, 6, 7, 8, 9, 10, 11]) [7, 7] [9] =
      .ok ⟨"devA", 1, .write, "x.com", "bookmarks", "t1",
        some (Json.obj [("text", Json.str "a")]), 1000⟩ :=
  ⟨by decide,
    decrypt_encrypt_roundtrip ⟨"devA", 1, .write, "x.com", "bookmarks", "t1",
        some (Json.obj [("text", Json.str "a")]), 1000⟩
      [7, 7] [9] [0, 1, 2, 3, 4, 5, 6, 7, 8, 9, 10, 11] (by decide)⟩

/-- Flip bit `j` of byte `i` of a byte string. -/
def flipBit (bs : Bytes) (i j : Nat) : Bytes :=
  bs.set i ((bs.getD i 0) ^^^ 2 ^ j)

theorem xor_pow_ne (a j : Nat) : a ^^^ 2 ^ j ≠ a := by
  intro h
  have h2 : a ^^^ (a ^^^ 2 ^ j) = a ^^^ a := congrArg (a ^^^ ·) h
  rw [← Nat.xor_assoc, Nat.xor_self, Nat.zero_xor] at h2
  exact Nat.pos_iff_ne_zero.mp (pow_pos (by omega) j) h2

/-- Flipping a bit inside the string really changes it. -/
theorem flipBit_ne (bs : Bytes) (i j : Nat) (hi : i < bs.length) :
    flipBit bs i j ≠ bs := by
  intro h
  have hget : (flipBit bs i j).getD i 0 = bs.getD i 0 := by rw [h]
  unfold flipBit at hget
  rw [List.getD_eq_getElem?_getD, List.getElem?_set_self hi,
    Option.getD_some] at hget
  exact xor_pow_ne (bs.getD i 0) j hget

/-- C4: Tamper detection is total and fails closed: for every blob produced
by `encrypt` (the spec's `EncryptedBlob`s are exactly the per-entry outputs
of `encrypt`), flipping any single bit of its nonce, ciphertext or mac makes
`decrypt` fail with `IntegrityError` — in particular it never returns a
different valid `ChangeEntry` for such a tampered blob. -/
theorem decrypt_rejects_tamper (entry : ChangeEntry) (ek sk nonce : Bytes)
    (i j : Nat) :
    (i < nonce.length →
      decrypt { encrypt entry ek sk nonce with nonce := flipBit nonce i j }
        ek sk = .integrityError) ∧
    (i < (encrypt entry ek sk nonce).ciphertext.length →
      decrypt { encrypt entry ek sk nonce with
          ciphertext := flipBit (encrypt entry ek sk nonce).ciphertext i j }
        ek sk = .integrityError) ∧
    (i < (encrypt entry ek sk nonce).mac.length →
      decrypt { encrypt entry ek sk nonce with
          mac := flipBit (encrypt entry ek sk nonce).mac i j }
        ek sk = .integrityError) := by
  refine ⟨fun hi => ?_, fun hi => ?_, fun hi => ?_⟩
  · have hne : macTag sk (nonce ++ xorKs ek nonce 0 (serializeEntry entry)) ≠
        macTag sk (flipBit nonce i j ++ xorKs ek nonce 0 (serializeEntry entry)) := by
      intro h
      exact flipBit_ne nonce i j hi
        (List.append_cancel_right (macTag_inj _ _ _ h)).symm
    simp [decrypt, encrypt, hne]
  · have hi' : i < (xorKs ek nonce 0 (serializeEntry entry)).length := hi
    have hne : macTag sk (nonce ++ xorKs ek nonce 0 (serializeEntry entry)) ≠
        macTag sk (nonce ++ flipBit (xorKs ek nonce 0 (serializeEntry entry)) i j) := by
      intro h
      exact flipBit_ne (xorKs ek nonce 0 (serializeEntry entry)) i j hi'
        (List.append_cancel_left (macTag_inj _ _ _ h)).symm
    simp [decrypt, encrypt, hne]
  · have hi' : i < (macTag sk (nonce ++ xorKs ek nonce 0 (serializeEntry entry))).length := hi
    have hne : flipBit (macTag sk (nonce ++ xorKs ek nonce 0 (serializeEntry entry))) i j ≠
        macTag sk (nonce ++ xorKs ek nonce 0 (serializeEntry entry)) :=
      flipBit_ne _ i j hi'
    simp [decrypt, encrypt, hne]

/-- Witness for C4: a concrete blob with bit 0 of byte 0 flipped in each of
the three envelope components. -/
theorem decrypt_rejects_tamper_witness :
    (0 : Nat) < ([1, 2, 3, 4, 5, 6, 7, 8, 9, 10, 11, 12] : Bytes).length ∧
    (decrypt { encrypt ⟨"a", 1, .delete, "b", "c", "d", none, 0⟩ [5] [6]
          [1, 2, 3, 4, 5, 6, 7, 8, 9, 10, 11, 12] with
        nonce := flipBit [1, 2, 3, 4, 5, 6, 7, 8, 9, 10, 11, 12] 0 0 }
      [5] [6] = .integrityError) ∧
    (decrypt { encrypt ⟨"a", 1, .delete, "b", "c", "d", none, 0⟩ [5] [6]
          [1, 2, 3, 4, 5, 6, 7, 8, 9, 10, 11, 12] with
        ciphertext := flipBit (encrypt ⟨"a", 1, .delete, "b", "c", "d", none, 0⟩
          [5] [6] [1, 2, 3, 4, 5, 6, 7, 8, 9, 10, 11, 12]).ciphertext 0 0 }
      [5] [6] = .integrityError) ∧
    (decrypt { encrypt ⟨"a", 1, .delete, "b", "c", "d", none, 0⟩ [5] [6]
          [1, 2, 3, 4, 5, 6, 7, 8, 9, 10, 11, 12] with
        mac := flipBit (encrypt ⟨"a", 1, .delete, "b", "c", "d", none, 0⟩
          [5] [6] [1, 2, 3, 4, 5, 6, 7, 8, 9, 10, 11, 12]).mac 0 0 }
      [5] [6] = .integrityError) :=
  ⟨by decide,
   (decrypt_rejects_tamper ⟨"a", 1, .delete, "b", "c", "d", none, 0⟩ [5] [6]
     [1, 2, 3, 4, 5, 6, 7, 8, 9, 10, 11, 12] 0 0).1 (by decide),
   (decrypt_rejects_tamper ⟨"a", 1, .delete, "b", "c", "d", none, 0⟩ [5] [6]
     [1, 2, 3, 4, 5, 6, 7, 8, 9, 10, 11, 12] 0 0).2.1 (by decide),
   (decrypt_rejects_tamper ⟨"a", 1, .delete, "b", "c", "d", none, 0⟩ [5] [6]
     [1, 2, 3, 4, 5, 6, 7, 8, 9, 10, 11, 12] 0 0).2.2 (by decide)⟩

/-- Modelled from the spec: the PBKDF2-SHA256 master key of the
(unimplemented) key-derivation step, idealized as an injective digest of
`(passphrase, salt, iterations)`. -/
def masterKey (passphrase : String) (salt : Bytes) (iterations : Nat) : Bytes :=
  encStr passphrase :: iterations :: salt

/-- Modelled from the spec: `derive_keys(passphrase, salt, iterations)` of
the (unimplemented) crypto envelope — rejects `iterations` below 600,000 and
otherwise deterministically expands the master key into the encryption and
signing keys (the HKDF-Expand labels are idealized as trailing tag bytes). -/
def deriveKeys (passphrase : String) (salt : Bytes) (iterations : Nat) :
    Option (Bytes × Bytes) :=
  if iterations < 600000 then none
  else some (masterKey passphrase salt iterations ++ [1],
             masterKey passphrase salt iterations ++ [2])

/-- C7: Key derivation is deterministic and gated on the iteration count:
equal `(passphrase, salt, iterations)` inputs always yield the same
`(encryption_key, signing_key)` pair across any two runs (the model has no
hidden state, so two runs are two applications), derivation succeeds for
every `iterations ≥ 600,000`, and every `iterations < 600,000` is
rejected. -/
theorem deriveKeys_deterministic_and_gated (p p2 : String) (salt salt2 : Bytes)
    (i i2 : Nat) :
    (p = p2 → salt = salt2 → i = i2 →
      deriveKeys p salt i = deriveKeys p2 salt2 i2) ∧
    (600000 ≤ i → (deriveKeys p salt i).isSome) ∧
    (i < 600000 → deriveKeys p salt i = none) := by
  refine ⟨fun hp hs hi => by rw [hp, hs, hi], fun h => ?_, fun h => ?_⟩
  · simp [deriveKeys, Nat.not_lt.mpr h]
  · simp [deriveKeys, h]

/-- Witness for C7 with a concrete passphrase and salt, at the minimum
accepted iteration count and one below it. -/
theorem deriveKeys_deterministic_and_gated_witness :
    (deriveKeys "pw" [3, 4] 600000 = deriveKeys "pw" [3, 4] 600000) ∧
    (deriveKeys "pw" [3, 4] 600000).isSome ∧
    deriveKeys "pw" [3, 4] 599999 = none :=
  ⟨(deriveKeys_deterministic_and_gated "pw" "pw" [3, 4] [3, 4] 600000 600000).1
      rfl rfl rfl,
   (deriveKeys_deterministic_and_gated "pw" "pw" [3, 4] [3, 4] 600000 600000).2.1
      (by decide),
   (deriveKeys_deterministic_and_gated "pw" "pw" [3, 4] [3, 4] 599999 599999).2.2
      (by decide)⟩

/-- Modelled from the spec: a `ConflictRecord` of the (unimplemented)
Conflict Resolver — `\x7b item_key, winning_device, losing_device,
winning_data, losing_data, resolved_at \x7d`, append-only, retained for
audit and recovery. -/
structure ConflictRecord where
  item_key : ItemKey
  winning_device : String
  losing_device : String
  winning_data : Option Json
  losing_data : Option Json
  resolved_at : Int
deriving DecidableEq

/-- Outcome of one resolver call: the entry to apply (none when the incoming
entry loses) and the conflict record to retain (none when there was no
existing entry to compare against). -/
structure ResolveOutcome where
  applied : Option ChangeEntry
  conflict : Option ConflictRecord
deriving DecidableEq

/-- The `(namespace, collection, item_id)` key of a change entry. -/
def entryKey (e : ChangeEntry) : ItemKey :=
  (e.ns, e.collection, e.item_id)

/-- Modelled from the spec: `resolve(incoming_entry, current_local_state)` of
the (unimplemented) Conflict Resolver — last-write-wins by timestamp: a
strictly newer incoming entry wins and is applied, a strictly older one is
not applied; either way the loser is preserved in a ConflictRecord with both
payloads; equal timestamps are broken deterministically by `device_id`
(larger device id wins here); with no existing entry the incoming one is
applied with no conflict. -/
def resolve (now : Int) (incoming : ChangeEntry) (cur : Option ChangeEntry) :
    ResolveOutcome :=
  match cur with
  | none => ⟨some incoming, none⟩
  | some c =>
    if c.timestamp < incoming.timestamp then
      ⟨some incoming, some ⟨entryKey incoming, incoming.device_id, c.device_id,
        incoming.payload, c.payload, now⟩⟩
    else if incoming.timestamp < c.timestamp then
      ⟨none, some ⟨entryKey incoming, c.device_id, incoming.device_id,
        c.payload, incoming.payload, now⟩⟩
    else if c.device_id < incoming.device_id then
      ⟨some incoming, some ⟨entryKey incoming, incoming.device_id, c.device_id,
        incoming.payload, c.payload, now⟩⟩
    else
      ⟨none, some ⟨entryKey incoming, c.device_id, incoming.device_id,
        c.payload, incoming.payload, now⟩⟩

/-- The last-applied entry per item key — the per-key state the resolver
compares against. -/
def SyncState := ItemKey → Option ChangeEntry

/-- The fresh local state of a new device. -/
def emptySyncState : SyncState := fun _ => none

/-- Modelled from the spec: the pull-side replay loop of the (unimplemented)
Pull Engine — feeds each entry into the resolver against the current state
for its key, applies the resolver's chosen outcome, and accumulates the
conflict records. -/
def applyEntries (now : Int) :
    List ChangeEntry → SyncState × List ConflictRecord →
    SyncState × List ConflictRecord
  | [], st => st
  | e :: es, (st, recs) =>
    let out := resolve now e (st (entryKey e))
    applyEntries now es
      (match out.applied with
        | some w => fun k => if k = entryKey e then some w else st k
        | none => st,
       recs ++ out.conflict.toList)

/-- C5: Last-write-wins resolution is order-independent and audited: for two
entries for the same `(namespace, collection, item_id)` key with timestamps
`T1 < T2` from different devices, replaying them in either arrival order
from a fresh state applies the `T2` entry as the final state for the key and
records exactly one ConflictRecord naming the `T2` device as winner and
referencing both payloads. -/
theorem resolve_lww_order_independent (e1 e2 : ChangeEntry) (now1 now2 : Int)
    (hkey : entryKey e1 = entryKey e2)
    (ht : e1.timestamp < e2.timestamp)
    (hd : e1.device_id ≠ e2.device_id) :
    ((applyEntries now1 [e1, e2] (emptySyncState, [])).1 (entryKey e2) = some e2 ∧
     (applyEntries now1 [e1, e2] (emptySyncState, [])).2 =
       [⟨entryKey e2, e2.device_id, e1.device_id, e2.payload, e1.payload, now1⟩]) ∧
    ((applyEntries now2 [e2, e1] (emptySyncState, [])).1 (entryKey e2) = some e2 ∧
     (applyEntries now2 [e2, e1] (emptySyncState, [])).2 =
       [⟨entryKey e2, e2.device_id, e1.device_id, e2.payload, e1.payload, now2⟩]) := by
  have hnot : ¬ e2.timestamp < e1.timestamp := not_lt.mpr (le_of_lt ht)
  refine ⟨⟨?_, ?_⟩, ⟨?_, ?_⟩⟩ <;>
    simp [applyEntries, resolve, emptySyncState, hkey, ht, hnot]

/-- Witness for C5: concrete writes of the same bookmark from two devices at
timestamps 1000 and 1002, replayed in both orders. -/
theorem resolve_lww_order_independent_witness :
    entryKey ⟨"devA", 1, .write, "x.com", "bookmarks", "t1",
        some (Json.obj [("text", Json.str "a")]), 1000⟩ =
      entryKey ⟨"devB", 1, .write, "x.com", "bookmarks", "t1",
        some (Json.obj [("text", Json.str "b")]), 1002⟩ ∧
    ((1000 : Int) < 1002) ∧
    ("devA" : String) ≠ "devB" ∧
    (((applyEntries 5 [⟨"devA", 1, .write, "x.com", "bookmarks", "t1",
          some (Json.obj [("text", Json.str "a")]), 1000⟩,
        ⟨"devB", 1, .write, "x.com", "bookmarks", "t1",
          some (Json.obj [("text", Json.str "b")]), 1002⟩]
        (emptySyncState, [])).1 (entryKey ⟨"devB", 1, .write, "x.com", "bookmarks", "t1",
          some (Json.obj [("text", Json.str "b")]), 1002⟩) =
        some ⟨"devB", 1, .write, "x.com", "bookmarks", "t1",
          some (Json.obj [("text", Json.str "b")]), 1002⟩ ∧
      (applyEntries 5 [⟨"devA", 1, .write, "x.com", "bookmarks", "t1",
          some (Json.obj [("text", Json.str "a")]), 1000⟩,
        ⟨"devB", 1, .write, "x.com", "bookmarks", "t1",
          some (Json.obj [("text", Json.str "b")]), 1002⟩]
        (emptySyncState, [])).2 =
        [⟨entryKey ⟨"devB", 1, .write, "x.com", "bookmarks", "t1",
            some (Json.obj [("text", Json.str "b")]), 1002⟩, "devB", "devA",
          some (Json.obj [("text", Json.str "b")]),
          some (Json.obj [("text", Json.str "a")]), 5⟩]) ∧
     ((applyEntries 6 [⟨"devB", 1, .write, "x.com", "bookmarks", "t1",
          some (Json.obj [("text", Json.str "b")]), 1002⟩,
        ⟨"devA", 1, .write, "x.com", "bookmarks", "t1",
          some (Json.obj [("text", Json.str "a")]), 1000⟩]
        (emptySyncState, [])).1 (entryKey ⟨"devB", 1, .write, "x.com", "bookmarks", "t1",
          some (Json.obj [("text", Json.str "b")]), 1002⟩) =
        some ⟨"devB", 1, .write, "x.com", "bookmarks", "t1",
          some (Json.obj [("text", Json.str "b")]), 1002⟩ ∧
      (applyEntries 6 [⟨"devB", 1, .write, "x.com", "bookmarks", "t1",
          some (Json.obj [("text", Json.str "b")]), 1002⟩,
        ⟨"devA", 1, .write, "x.com", "bookmarks", "t1",
          some (Json.obj [("text", Json.str "a")]), 1000⟩]
        (emptySyncState, [])).2 =
        [⟨entryKey ⟨"devB", 1, .write, "x.com", "bookmarks", "t1",
            some (Json.obj [("text", Json.str "b")]), 1002⟩, "devB", "devA",
          some (Json.obj [("text", Json.str "b")]),
          some (Json.obj [("text", Json.str "a")]), 6⟩])) :=
  ⟨rfl, by decide, by decide,
    resolve_lww_order_independent
      ⟨"devA", 1, .write, "x.com", "bookmarks", "t1",
        some (Json.obj [("text", Json.str "a")]), 1000⟩
      ⟨"devB", 1, .write, "x.com", "bookmarks", "t1",
        some (Json.obj [("text", Json.str "b")]), 1002⟩ 5 6
      rfl (by decide) (by decide)⟩

/-- Modelled from the spec: the Manifest's authenticated-encryption envelope
on the relay (its decrypted content — salt, device registry — is not needed
by the failure path under verification, only the tag check is). -/
structure SealedBlob where
  nonce : Bytes
  ciphertext : Bytes
  mac : Bytes
deriving DecidableEq

/-- Modelled from the spec: the relay as `restore` reads it — the plaintext
salt and iteration count stored alongside the encrypted data, the encrypted
Manifest, and the change-entry blobs. -/
structure Relay where
  salt : Bytes
  kdfIterations : Nat
  manifest : SealedBlob
  changes : List EncryptedBlob
deriving DecidableEq

/-- Tag verification of a sealed blob under a signing key. -/
def checkTag (sk : Bytes) (b : SealedBlob) : Bool :=
  b.mac == macTag sk (b.nonce ++ b.ciphertext)

/-- Whether the passphrase decrypts the relay's Manifest: key derivation
succeeds for the relay's stored parameters and the Manifest's tag
verifies under the derived signing key. -/
def manifestOpens (passphrase : String) (relay : Relay) : Bool :=
  match deriveKeys passphrase relay.salt relay.kdfIterations with
  | none => false
  | some (_, sk) => checkTag sk relay.manifest

/-- The failure `restore` surfaces on a wrong passphrase. -/
inductive RestoreError where
  | authenticationError
deriving DecidableEq

/-- Successful-restore summary (the count of restored entries). -/
structure RestoreOk where
  restored_entries : Nat
deriving DecidableEq

/-- Wrapper around `decrypt` as an optional value, for discarding failed blobs. -/
def decryptOk (b : EncryptedBlob) (ek sk : Bytes) : Option ChangeEntry :=
  match decrypt b ek sk with
  | .ok e => some e
  | .integrityError => none

/-- Replay order of pulled entries: timestamp ascending, ties by device id. -/
def entryLE (a b : ChangeEntry) : Bool :=
  decide (a.timestamp < b.timestamp) ||
    (a.timestamp == b.timestamp && decide (a.device_id ≤ b.device_id))

/-- Insertion into a replay-ordered list. -/
def insertEntry (e : ChangeEntry) : List ChangeEntry → List ChangeEntry
  | [] => [e]
  | x :: xs => if entryLE e x then e :: x :: xs else x :: insertEntry e xs

/-- Insertion sort by replay order. -/
def sortEntries : List ChangeEntry → List ChangeEntry
  | [] => []
  | e :: es => insertEntry e (sortEntries es)

/-- Modelled from the spec: `restore(passphrase, relay)` of the
(unimplemented) Manifest & Device Registry component — derives keys from the
relay's stored salt and iteration count, verifies the Manifest's tag (a
failed verification, not a separate password check, is what detects a wrong
passphrase and fails with `AuthenticationError`), and only then replays the
relay's change history through decryption, ordering and conflict resolution
to rebuild local state; the local state is threaded explicitly and returned
unchanged on failure. -/
def restore (passphrase : String) (relay : Relay) (s0 : SyncState) :
    Except RestoreError RestoreOk × SyncState :=
  match deriveKeys passphrase relay.salt relay.kdfIterations with
  | none => (.error .authenticationError, s0)
  | some (ek, sk) =>
    if checkTag sk relay.manifest then
      (.ok ⟨(relay.changes.filterMap (fun b => decryptOk b ek sk)).length⟩,
        (applyEntries 0
          (sortEntries (relay.changes.filterMap (fun b => decryptOk b ek sk)))
          (s0, [])).1)
    else (.error .authenticationError, s0)

/-- C6: `restore` with a wrong passphrase is atomic: whenever the passphrase
does not decrypt the relay's Manifest, `restore` fails with
`AuthenticationError` and the local state it returns is exactly the state it
started from — no partial local state is created. -/
theorem restore_wrong_passphrase_atomic (passphrase : String) (relay : Relay)
    (s0 : SyncState) (h : manifestOpens passphrase relay = false) :
    restore passphrase relay s0 = (.error .authenticationError, s0) := by
  unfold manifestOpens at h
  unfold restore
  cases hd : deriveKeys passphrase relay.salt relay.kdfIterations with
  | none => rfl
  | some kp =>
    obtain ⟨ek, sk⟩ := kp
    rw [hd] at h
    simp only [] at h
    simp [h]

/-- Witness for C6: a relay whose Manifest is sealed under the keys derived
from passphrase `"a"`, restored with passphrase `"b"` from a fresh state. -/
theorem restore_wrong_passphrase_atomic_witness :
    manifestOpens "b"
      ⟨[1], 600000,
        ⟨[9], [42], macTag (masterKey "a" [1] 600000 ++ [2]) ([9] ++ [42])⟩,
        []⟩ = false ∧
    restore "b"
      ⟨[1], 600000,
        ⟨[9], [42], macTag (masterKey "a" [1] 600000 ++ [2]) ([9] ++ [42])⟩,
        []⟩ emptySyncState =
      (.error .authenticationError, emptySyncState) :=
  ⟨by decide,
    restore_wrong_passphrase_atomic "b"
      ⟨[1], 600000,
        ⟨[9], [42], macTag (masterKey "a" [1] 600000 ++ [2]) ([9] ++ [42])⟩,
        []⟩ emptySyncState (by decide)⟩
